import Mathlib

/-!
Shallow embedding of the orchestration core of `src/chapel_booking.py`
(class `ChapelBooking` and `main`).  The browser/driver is treated as an
external oracle: an environment value decides, for each UI interaction,
what the page showed.  Each Lean definition mirrors one Python function's
control flow; theorems below settle the specification claims.
-/

namespace Chapel

/-! ## Player assignment engine (`ChapelBooking.enter_players`, lines 596-828)

The per-candidate lookup has five observable outcomes, read off the code's
branches:
* the search button cannot be found/clicked (line 632-634): `searchFail`;
* a displayed, non-empty error div in the modal (lines 638-648): `errorShown`;
* the input cannot be re-found after the DOM update (lines 652-656): `refindFail`;
* an exception while inspecting tooltip/value (lines 676-678): `checkFail`;
* otherwise the re-read field value and tooltip text (lines 657-675): `signal`.
-/

inductive LookupOutcome where
  | searchFail
  | errorShown
  | refindFail
  | checkFail
  | signal (value : String) (tooltip : String)
deriving DecidableEq

/-- What the code does with one candidate's lookup outcome (lines 636-678):
`accepted` binds the name, `rejectedMark` adds it to the rejected set,
`skipNoMark` moves on recording nothing.  The `signal` case mirrors
`if input_field.get_attribute('value') and not tooltip_text` (line 668). -/
inductive CandResult where
  | accepted
  | skipNoMark
  | rejectedMark
deriving DecidableEq

def candResult : LookupOutcome → CandResult
  | .searchFail => .skipNoMark
  | .errorShown => .rejectedMark
  | .refindFail => .skipNoMark
  | .checkFail => .rejectedMark
  | .signal v t => if v ≠ "" ∧ t = "" then .accepted else .rejectedMark

/-- Trace events of a run of the assignment engine: `submit f n` is the code
typing name `n` into opponent field `f` and triggering the lookup
(lines 625-631); `reject n` is `rejected_names.add(name)`. -/
inductive Event where
  | submit (field : ℕ) (name : String)
  | reject (name : String)
deriving DecidableEq

/-- The driver/page oracle for `enter_players`.  `lookup` is indexed by the
number of trace events already emitted, so a run is deterministic given the
oracle.  `fieldFound idx` is whether the opponent input for field `idx`
could be located (lines 613-619); `recheckOk idx` is whether the final
defensive re-check of field `idx` found a non-empty value (lines 683-691);
`basketOk` abstracts the add-to-basket / terms / confirm tail of the
function (lines 694-825). -/
structure Env where
  modalPresent : Bool
  fieldFound : ℕ → Bool
  lookup : ℕ → LookupOutcome
  recheckOk : ℕ → Bool
  basketOk : Bool

/-- `used_names`, `rejected_names`, the field-to-name bindings made so far,
and the interaction trace. -/
structure EnterState where
  used : List String
  rejected : List String
  bound : List (ℕ × String)
  trace : List Event
deriving DecidableEq

def initState : EnterState := ⟨[], [], [], []⟩

def pushSubmit (fieldIdx : ℕ) (name : String) (s : EnterState) : EnterState :=
  { s with trace := s.trace ++ [Event.submit fieldIdx name] }

def pushReject (name : String) (s : EnterState) : EnterState :=
  { s with rejected := name :: s.rejected, trace := s.trace ++ [Event.reject name] }

/-- The inner `for name in self.player_names` loop (lines 622-678) for one
opponent field: returns the accepted name (and updated state), or `none`
when the roster is exhausted without an acceptance. -/
def tryNames (env : Env) (fieldIdx : ℕ) : List String → EnterState → Option String × EnterState
  | [], s => (none, s)
  | name :: rest, s =>
    if name ∈ s.used ∨ name ∈ s.rejected then
      tryNames env fieldIdx rest s
    else
      let s1 := pushSubmit fieldIdx name s
      match candResult (env.lookup s.trace.length) with
      | .skipNoMark => tryNames env fieldIdx rest s1
      | .rejectedMark => tryNames env fieldIdx rest (pushReject name s1)
      | .accepted => (some name, { s1 with used := name :: s1.used })

/-- The outer `for idx, (input_name, search_id) in enumerate(field_info)` loop
(lines 612-681): a missing input field or an exhausted roster returns
failure immediately. -/
def runFields (env : Env) (roster : List String) : List ℕ → EnterState → Bool × EnterState
  | [], s => (true, s)
  | idx :: rest, s =>
    if env.fieldFound idx then
      match tryNames env idx roster s with
      | (some name, s') => runFields env roster rest { s' with bound := s'.bound ++ [(idx, name)] }
      | (none, s') => (false, s')
    else (false, s)

/-- The fixed opponent fields `field_info` (lines 607-611). -/
def field_info : List (String × String) :=
  [("medspiller", "sub"), ("medspiller2", "medsub2"), ("medspiller3", "medsub3")]

/-- `ChapelBooking.enter_players` (lines 596-828): wait for the modal, run the
assignment loop over the three fields, re-check every field is still filled,
then run the basket/terms/confirmation tail.  Returns the Python function's
boolean result together with the final assignment state. -/
def enter_players (env : Env) (roster : List String) : Bool × EnterState :=
  if env.modalPresent then
    match runFields env roster (List.range field_info.length) initState with
    | (true, s) =>
      if (List.range field_info.length).all env.recheckOk then
        if env.basketOk then (true, s) else (false, s)
      else (false, s)
    | (false, s) => (false, s)
  else (false, initState)

/-- A sample oracle that accepts every submitted name. -/
def envAccept : Env :=
  ⟨true, fun _ => true, fun _ => LookupOutcome.signal "ok" "", fun _ => true, true⟩

/-- A sample oracle that rejects the first submission (error div shown) and
accepts every other one. -/
def envRejectFirst : Env :=
  ⟨true, fun _ => true,
   fun i => if i = 0 then LookupOutcome.errorShown else LookupOutcome.signal "ok" "",
   fun _ => true, true⟩

/-- A sample oracle where the very first search-button click fails
(line 632-634) and every other submission is accepted. -/
def envSearchFailFirst : Env :=
  ⟨true, fun _ => true,
   fun i => if i = 0 then LookupOutcome.searchFail else LookupOutcome.signal "ok" "",
   fun _ => true, true⟩

example : (enter_players envAccept ["A", "B", "C"]).1 = true := by decide
example : (enter_players envAccept ["A", "B"]).1 = false := by decide
example : (enter_players envRejectFirst ["A", "B", "C", "D"]).2.trace =
    [Event.submit 0 "A", Event.reject "A", Event.submit 0 "B",
     Event.submit 1 "C", Event.submit 2 "D"] := by decide
example : (enter_players envSearchFailFirst ["A", "B", "C"]).2.trace =
    [Event.submit 0 "A", Event.submit 0 "B", Event.submit 1 "A", Event.submit 2 "C"] := by
  decide

/-! ## The rejection-memory trace invariant -/

/-- `Good R tr`: starting from rejected set `R`, the trace `tr` never submits
a name that is already rejected, where each `reject` event enlarges the set. -/
def Good : List String → List Event → Prop
  | _, [] => True
  | R, Event.submit _ n :: tr => n ∉ R ∧ Good R tr
  | R, Event.reject n :: tr => Good (n :: R) tr

/-- The rejected set after running a trace from `R`. -/
def rejAfter : List String → List Event → List String
  | R, [] => R
  | R, Event.submit _ _ :: tr => rejAfter R tr
  | R, Event.reject n :: tr => rejAfter (n :: R) tr

lemma good_append {R : List String} {t1 t2 : List Event}
    (h1 : Good R t1) (h2 : Good (rejAfter R t1) t2) : Good R (t1 ++ t2) := by
  induction t1 generalizing R with
  | nil => simpa [Good, rejAfter] using h2
  | cons e t ih =>
    cases e with
    | submit f n =>
      exact ⟨h1.1, ih h1.2 h2⟩
    | reject n =>
      exact ih h1 h2

lemma rejAfter_append (R : List String) (t1 t2 : List Event) :
    rejAfter R (t1 ++ t2) = rejAfter (rejAfter R t1) t2 := by
  induction t1 generalizing R with
  | nil => rfl
  | cons e t ih => cases e <;> simp [rejAfter, ih]

/-- One pass of `tryNames` extends the trace by a `Good` segment and updates
the rejected set exactly as the segment's `reject` events say. -/
lemma tryNames_trace (env : Env) (f : ℕ) :
    ∀ (names : List String) (s : EnterState),
      ∃ d : List Event,
        (tryNames env f names s).2.trace = s.trace ++ d ∧
        Good s.rejected d ∧
        (tryNames env f names s).2.rejected = rejAfter s.rejected d := by
  intro names
  induction names with
  | nil => intro s; exact ⟨[], by simp [tryNames], trivial, rfl⟩
  | cons name rest ih =>
    intro s
    by_cases hmem : name ∈ s.used ∨ name ∈ s.rejected
    · simpa [tryNames, hmem] using ih s
    · push_neg at hmem
      cases hout : candResult (env.lookup s.trace.length) with
      | skipNoMark =>
        obtain ⟨d, hd1, hd2, hd3⟩ := ih (pushSubmit f name s)
        refine ⟨Event.submit f name :: d, ?_, ⟨hmem.2, ?_⟩, ?_⟩
        · simpa [tryNames, hmem, hout, pushSubmit] using hd1
        · simpa [pushSubmit] using hd2
        · simpa [tryNames, hmem, hout, pushSubmit, rejAfter] using hd3
      | rejectedMark =>
        obtain ⟨d, hd1, hd2, hd3⟩ := ih (pushReject name (pushSubmit f name s))
        refine ⟨Event.submit f name :: Event.reject name :: d, ?_, ⟨hmem.2, ?_⟩, ?_⟩
        · simpa [tryNames, hmem, hout, pushSubmit, pushReject] using hd1
        · simpa [Good, pushSubmit, pushReject] using hd2
        · simpa [tryNames, hmem, hout, pushSubmit, pushReject, rejAfter] using hd3
      | accepted =>
        refine ⟨[Event.submit f name], ?_, ⟨hmem.2, trivial⟩, ?_⟩
        · simp [tryNames, hmem, hout, pushSubmit]
        · simp [tryNames, hmem, hout, pushSubmit, rejAfter]

/-- `runFields` likewise only appends `Good` trace segments. -/
lemma runFields_trace (env : Env) (roster : List String) :
    ∀ (fields : List ℕ) (s : EnterState),
      ∃ d : List Event,
        (runFields env roster fields s).2.trace = s.trace ++ d ∧
        Good s.rejected d ∧
        (runFields env roster fields s).2.rejected = rejAfter s.rejected d := by
  intro fields
  induction fields with
  | nil => intro s; exact ⟨[], by simp [runFields], trivial, rfl⟩
  | cons idx rest ih =>
    intro s
    by_cases hf : env.fieldFound idx
    · cases htry : tryNames env idx roster s with
      | mk r s' =>
        obtain ⟨d1, hd1, hg1, hr1⟩ := tryNames_trace env idx roster s
        rw [htry] at hd1 hr1
        cases r with
        | some name =>
          obtain ⟨d2, hd2, hg2, hr2⟩ := ih { s' with bound := s'.bound ++ [(idx, name)] }
          have hd1' : s'.trace = s.trace ++ d1 := hd1
          have hr1' : s'.rejected = rejAfter s.rejected d1 := hr1
          refine ⟨d1 ++ d2, ?_, ?_, ?_⟩
          · simp only [runFields, hf, htry, if_pos]
            rw [hd2]
            simp [hd1', List.append_assoc]
          · exact good_append hg1 (by rw [← hr1']; simpa using hg2)
          · simp only [runFields, hf, htry, if_pos]
            rw [rejAfter_append, ← hr1']
            simpa using hr2
        | none =>
          exact ⟨d1, by simpa [runFields, hf, htry] using hd1, hg1,
            by simpa [runFields, hf, htry] using hr1⟩
    · exact ⟨[], by simp [runFields, hf], trivial, by simp [runFields, hf, rejAfter]⟩

/-- The final recheck and the basket tail return the assignment state
unchanged: when the modal is present, `enter_players`'s state is the state
`runFields` left. -/
lemma enter_players_snd (env : Env) (roster : List String)
    (hm : env.modalPresent = true) :
    (enter_players env roster).2 =
      (runFields env roster (List.range field_info.length) initState).2 := by
  unfold enter_players
  rw [if_pos hm]
  rcases hrf : runFields env roster (List.range field_info.length) initState with ⟨b, s⟩
  cases b
  · rfl
  · dsimp only
    split
    · split <;> rfl
    · rfl

/-- The whole trace of a run of `enter_players` is `Good` from the empty
rejected set. -/
lemma enter_players_trace_good (env : Env) (roster : List String) :
    Good [] (enter_players env roster).2.trace := by
  by_cases hm : env.modalPresent
  · obtain ⟨d, hd1, hg, _⟩ := runFields_trace env roster (List.range field_info.length) initState
    rw [enter_players_snd env roster hm, hd1]
    simpa [initState] using hg
  · simp [enter_players, hm, initState, Good]

/-- A name already rejected is never submitted anywhere in a `Good` trace. -/
lemma good_no_submit {R : List String} {tr : List Event} {n : String}
    (h : Good R tr) (hn : n ∈ R) : ∀ f, Event.submit f n ∉ tr := by
  induction tr generalizing R with
  | nil => intro f; simp
  | cons e t ih =>
    intro f
    cases e with
    | submit f' n' =>
      obtain ⟨h1, h2⟩ := h
      intro hc
      rcases List.mem_cons.mp hc with heq | hmem
      · cases heq; exact h1 hn
      · exact ih h2 hn f hmem
    | reject m =>
      intro hc
      rcases List.mem_cons.mp hc with heq | hmem
      · cases heq
      · exact ih h (List.mem_cons_of_mem m hn) f hmem

/-- In a `Good` trace, after a `reject n` event no later event submits `n`. -/
lemma good_reject_then_no_submit {tr : List Event} :
    ∀ {R : List String} {i j : ℕ} {n : String} {f : ℕ}, Good R tr → i < j →
      tr[i]? = some (Event.reject n) → tr[j]? ≠ some (Event.submit f n) := by
  induction tr with
  | nil => intro R i j n f _ _ hi; simp at hi
  | cons e t ih =>
    intro R i j n f hg hij hi
    cases i with
    | zero =>
      simp only [List.getElem?_cons_zero, Option.some.injEq] at hi
      subst hi
      obtain ⟨j', rfl⟩ : ∃ j', j = j' + 1 := ⟨j - 1, by omega⟩
      simp only [List.getElem?_cons_succ]
      intro hc
      exact good_no_submit (R := n :: R) hg (by simp) f (List.getElem?_mem hc)
    | succ i' =>
      obtain ⟨j', rfl⟩ : ∃ j', j = j' + 1 := ⟨j - 1, by omega⟩
      simp only [List.getElem?_cons_succ] at hi ⊢
      cases e with
      | submit f' n' => exact ih hg.2 (by omega) hi
      | reject m => exact ih hg (by omega) hi

/-- C1.  For every run of the player assignment engine (`enter_players`) and
every roster name `n`: once `n` has been added to the rejected set, no later
submission in the same run types `n` into any opponent field — the trace
never contains a `submit` of `n`, for any field, after a `reject` of `n`. -/
theorem enter_players_no_resubmission_after_reject
    (env : Env) (roster : List String) (i j : ℕ) (n : String) (f : ℕ)
    (hij : i < j)
    (hi : (enter_players env roster).2.trace[i]? = some (Event.reject n)) :
    (enter_players env roster).2.trace[j]? ≠ some (Event.submit f n) :=
  good_reject_then_no_submit (enter_players_trace_good env roster) hij hi

/-- Witness for C1: with the oracle that rejects the first submission, the
run on roster `["A", "B", "C", "D"]` rejects `"A"` at trace position 1, and
the theorem rules `"A"` out of the submission at position 2. -/
theorem enter_players_no_resubmission_after_reject_witness :
    (1 : ℕ) < 2 ∧
    (enter_players envRejectFirst ["A", "B", "C", "D"]).2.trace[1]? =
      some (Event.reject "A") ∧
    (enter_players envRejectFirst ["A", "B", "C", "D"]).2.trace[2]? ≠
      some (Event.submit 0 "A") :=
  ⟨by decide, by decide,
    enter_players_no_resubmission_after_reject envRejectFirst ["A", "B", "C", "D"]
      1 2 "A" 0 (by decide) (by decide)⟩

/-! ## Accepted names: counting and binding invariants -/

/-- What one field's candidate pass does to `used_names` and to the bindings:
an acceptance conses exactly one fresh roster name onto `used`, exhaustion
leaves `used` untouched, and `tryNames` never touches `bound`. -/
lemma tryNames_used (env : Env) (f : ℕ) :
    ∀ (names : List String) (s : EnterState),
      (∀ name s', tryNames env f names s = (some name, s') →
        s'.used = name :: s.used ∧ name ∉ s.used ∧ name ∈ names ∧ s'.bound = s.bound) ∧
      (∀ s', tryNames env f names s = (none, s') → s'.used = s.used ∧ s'.bound = s.bound) := by
  intro names
  induction names with
  | nil =>
    intro s
    constructor
    · intro name s' h; simp [tryNames] at h
    · intro s' h
      simp only [tryNames, Prod.mk.injEq] at h
      rw [← h.2]
      exact ⟨rfl, rfl⟩
  | cons name rest ih =>
    intro s
    by_cases hmem : name ∈ s.used ∨ name ∈ s.rejected
    · constructor
      · intro name' s' h
        rw [show tryNames env f (name :: rest) s = tryNames env f rest s by
          simp [tryNames, hmem]] at h
        obtain ⟨h1, h2, h3, h4⟩ := (ih s).1 name' s' h
        exact ⟨h1, h2, List.mem_cons_of_mem _ h3, h4⟩
      · intro s' h
        rw [show tryNames env f (name :: rest) s = tryNames env f rest s by
          simp [tryNames, hmem]] at h
        exact (ih s).2 s' h
    · push_neg at hmem
      cases hout : candResult (env.lookup s.trace.length) with
      | skipNoMark =>
        have hred : tryNames env f (name :: rest) s =
            tryNames env f rest (pushSubmit f name s) := by
          simp [tryNames, hmem, hout]
        constructor
        · intro name' s' h
          rw [hred] at h
          obtain ⟨h1, h2, h3, h4⟩ := (ih (pushSubmit f name s)).1 name' s' h
          exact ⟨h1, h2, List.mem_cons_of_mem _ h3, h4⟩
        · intro s' h
          rw [hred] at h
          exact (ih (pushSubmit f name s)).2 s' h
      | rejectedMark =>
        have hred : tryNames env f (name :: rest) s =
            tryNames env f rest (pushReject name (pushSubmit f name s)) := by
          simp [tryNames, hmem, hout]
        constructor
        · intro name' s' h
          rw [hred] at h
          obtain ⟨h1, h2, h3, h4⟩ := (ih (pushReject name (pushSubmit f name s))).1 name' s' h
          exact ⟨h1, h2, List.mem_cons_of_mem _ h3, h4⟩
        · intro s' h
          rw [hred] at h
          exact (ih (pushReject name (pushSubmit f name s))).2 s' h
      | accepted =>
        have hred : tryNames env f (name :: rest) s =
            (some name, ⟨name :: s.used, s.rejected, s.bound,
              s.trace ++ [Event.submit f name]⟩) := by
          simp [tryNames, hmem, hout, pushSubmit]
        constructor
        · intro name' s' h
          rw [hred] at h
          injection h with h1 h2
          injection h1 with h1
          subst h1
          subst h2
          exact ⟨rfl, hmem.1, List.mem_cons_self _ _, rfl⟩
        · intro s' h
          rw [hred] at h
          injection h with h1 h2
          exact absurd h1 (by simp)


/-- A successful pass over a field list binds one fresh roster name per field:
`used` grows by exactly the number of fields, stays duplicate-free, stays
inside the roster, and the bindings mirror `used` in reverse order. -/
lemma runFields_used (env : Env) (roster : List String) :
    ∀ (fields : List ℕ) (s s' : EnterState),
      runFields env roster fields s = (true, s') →
      s'.used.length = s.used.length + fields.length ∧
      (s.used.Nodup → s'.used.Nodup) ∧
      (∀ n ∈ s'.used, n ∈ roster ∨ n ∈ s.used) ∧
      s'.bound.length = s.bound.length + fields.length ∧
      ((s.bound.map Prod.snd).reverse = s.used →
        (s'.bound.map Prod.snd).reverse = s'.used) := by
  intro fields
  induction fields with
  | nil =>
    intro s s' h
    simp only [runFields, Prod.mk.injEq] at h
    rw [← h.2]
    exact ⟨by simp, fun hn => hn, fun n hn => Or.inr hn, by simp, fun hb => hb⟩
  | cons idx rest ih =>
    intro s s' h
    by_cases hf : env.fieldFound idx
    · cases htry : tryNames env idx roster s with
      | mk r s1 =>
        cases r with
        | some name =>
          rw [show runFields env roster (idx :: rest) s =
              runFields env roster rest { s1 with bound := s1.bound ++ [(idx, name)] } by
            simp [runFields, hf, htry]] at h
          obtain ⟨hu, hfresh, hros, hb⟩ := (tryNames_used env idx roster s).1 name s1 htry
          obtain ⟨ih1, ih2, ih3, ih4, ih5⟩ := ih _ s' h
          refine ⟨?_, ?_, ?_, ?_, ?_⟩
          · simp only at ih1
            rw [ih1, hu]
            simp only [List.length_cons]
            omega
          · intro hnd
            apply ih2
            simp only [hu]
            exact List.Nodup.cons hfresh hnd
          · intro n hn
            rcases ih3 n hn with hr | hm
            · exact Or.inl hr
            · simp only [hu, List.mem_cons] at hm
              rcases hm with rfl | hm
              · exact Or.inl hros
              · exact Or.inr hm
          · simp only at ih4
            rw [ih4, hb]
            simp only [List.length_append, List.length_cons, List.length_nil]
            omega
          · intro hinv
            apply ih5
            simp only [hu, hb, List.map_append, List.reverse_append]
            simp [hinv]
        | none =>
          rw [show runFields env roster (idx :: rest) s = (false, s1) by
            simp [runFields, hf, htry]] at h
          simp at h
    · rw [show runFields env roster (idx :: rest) s = (false, s) by
        simp [runFields, hf]] at h
      simp at h

/-- A run of `enter_players` that returns `True` went through `runFields`
successfully with the modal present. -/
lemma enter_players_true_elim (env : Env) (roster : List String) (s : EnterState)
    (h : enter_players env roster = (true, s)) :
    env.modalPresent = true ∧
    runFields env roster (List.range field_info.length) initState = (true, s) := by
  by_cases hm : env.modalPresent
  · refine ⟨hm, ?_⟩
    unfold enter_players at h
    rw [if_pos hm] at h
    rcases hrf : runFields env roster (List.range field_info.length) initState with ⟨b, s0⟩
    rw [hrf] at h
    cases b
    · simp at h
    · simp only at h
      split at h
      · split at h
        · injection h with h1 h2
          rw [h2]
        · simp at h
      · simp at h
  · rw [show enter_players env roster = (false, initState) by
      simp [enter_players, hm]] at h
    simp at h

/-- Every state a successful run of `enter_players` ends in: three distinct
used names, all from the roster, and three bindings whose names are exactly
those used names. -/
lemma enter_players_success_state (env : Env) (roster : List String) (s : EnterState)
    (h : enter_players env roster = (true, s)) :
    s.used.length = 3 ∧ s.used.Nodup ∧ (∀ n ∈ s.used, n ∈ roster) ∧
    s.bound.length = 3 ∧ (s.bound.map Prod.snd).Nodup := by
  obtain ⟨hm, hrf⟩ := enter_players_true_elim env roster s h
  obtain ⟨h1, h2, h3, h4, h5⟩ := runFields_used env roster _ initState s hrf
  have hlen : s.used.length = 3 := by simpa [initState, field_info] using h1
  have hnd : s.used.Nodup := h2 (by simp [initState])
  have hmem : ∀ n ∈ s.used, n ∈ roster := by
    intro n hn
    rcases h3 n hn with hr | hm'
    · exact hr
    · simp [initState] at hm'
  have hrev : (s.bound.map Prod.snd).reverse = s.used := h5 (by simp [initState])
  refine ⟨hlen, hnd, hmem, by simpa [initState, field_info] using h4, ?_⟩
  rw [← List.nodup_reverse, hrev]
  exact hnd

/-- Fewer than three distinct roster names make `enter_players` fail,
whatever the page does. -/
lemma insufficient_aux (env : Env) (roster : List String)
    (h : roster.dedup.length < 3) : (enter_players env roster).1 = false := by
  by_contra hc
  have h1 : (enter_players env roster).1 = true := by
    cases hb : (enter_players env roster).1
    · exact absurd hb hc
    · rfl
  have hep : enter_players env roster = (true, (enter_players env roster).2) := by
    rw [← h1]
  obtain ⟨hlen, hnd, hmem, -, -⟩ :=
    enter_players_success_state env roster (enter_players env roster).2 hep
  have hcard : (enter_players env roster).2.used.toFinset.card = 3 := by
    rw [List.toFinset_card_of_nodup hnd, hlen]
  have hsub : (enter_players env roster).2.used.toFinset ⊆ roster.toFinset := by
    intro x hx
    exact List.mem_toFinset.mpr (hmem x (List.mem_toFinset.mp hx))
  have hle : (3 : ℕ) ≤ roster.toFinset.card := hcard ▸ Finset.card_le_card hsub
  rw [List.card_toFinset] at hle
  omega

/-- C6.  A roster with fewer usable names than the three opponent fields
makes `enter_players` fail deterministically (whatever the page answers),
and a field that exhausts the roster without an acceptance fails the
assignment immediately, with no partial commit reported as success. -/
theorem enter_players_insufficient_roster_fails :
    (∀ (env : Env) (roster : List String), roster.dedup.length < 3 →
      (enter_players env roster).1 = false) ∧
    (∀ (env : Env) (roster : List String) (idx : ℕ) (rest : List ℕ)
        (s s' : EnterState), env.fieldFound idx = true →
      tryNames env idx roster s = (none, s') →
      runFields env roster (idx :: rest) s = (false, s')) := by
  constructor
  · exact insufficient_aux
  · intro env roster idx rest s s' hf htry
    simp [runFields, hf, htry]

/-- Witness for C6: a two-name roster fails under the always-accepting
oracle, and an empty roster fails field 0 at once. -/
theorem enter_players_insufficient_roster_fails_witness :
    (["A", "B"].dedup.length < 3 ∧ (enter_players envAccept ["A", "B"]).1 = false) ∧
    (envAccept.fieldFound 0 = true ∧
      tryNames envAccept 0 [] initState = (none, initState) ∧
      runFields envAccept [] [0, 1, 2] initState = (false, initState)) :=
  ⟨⟨by decide, enter_players_insufficient_roster_fails.1 envAccept ["A", "B"] (by decide)⟩,
   ⟨by decide, by decide,
    enter_players_insufficient_roster_fails.2 envAccept [] 0 [1, 2] initState initState
      (by decide) (by decide)⟩⟩

/-- C9.  The opponent fields are fixed at exactly three (`medspiller`,
`medspiller2`, `medspiller3`) independent of roster size: every successful
run binds exactly 3 distinct accepted names, and every roster with fewer
than 3 usable names fails. -/
theorem enter_players_exactly_three_fields :
    field_info.length = 3 ∧
    (∀ (env : Env) (roster : List String) (s : EnterState),
      enter_players env roster = (true, s) →
      s.bound.length = 3 ∧ (s.bound.map Prod.snd).Nodup) ∧
    (∀ (env : Env) (roster : List String), roster.dedup.length < 3 →
      (enter_players env roster).1 = false) := by
  refine ⟨rfl, ?_, insufficient_aux⟩
  intro env roster s h
  obtain ⟨-, -, -, h4, h5⟩ := enter_players_success_state env roster s h
  exact ⟨h4, h5⟩

/-- Witness for C9: the always-accepting oracle on roster `["A", "B", "C"]`
succeeds and binds three distinct names; roster `["X"]` fails. -/
theorem enter_players_exactly_three_fields_witness :
    field_info.length = 3 ∧
    ((enter_players envAccept ["A", "B", "C"]).2.bound.length = 3 ∧
      ((enter_players envAccept ["A", "B", "C"]).2.bound.map Prod.snd).Nodup) ∧
    (enter_players envAccept ["X"]).1 = false :=
  ⟨enter_players_exactly_three_fields.1,
   enter_players_exactly_three_fields.2.1 envAccept ["A", "B", "C"]
     (enter_players envAccept ["A", "B", "C"]).2 (by decide),
   enter_players_exactly_three_fields.2.2 envAccept ["X"] (by decide)⟩

/-- C7.  The acceptance decision for a submitted candidate name: a displayed
non-empty error indicator rejects; a tooltip together with an empty
resulting field value rejects; a non-empty resulting value with no tooltip
accepts. -/
theorem candResult_acceptance_rule (v t : String) :
    candResult LookupOutcome.errorShown = CandResult.rejectedMark ∧
    (t ≠ "" → v = "" → candResult (LookupOutcome.signal v t) = CandResult.rejectedMark) ∧
    (v ≠ "" → t = "" → candResult (LookupOutcome.signal v t) = CandResult.accepted) := by
  refine ⟨rfl, ?_, ?_⟩
  · intro ht hv
    simp [candResult, hv]
  · intro hv ht
    simp [candResult, hv, ht]

/-- Witness for C7: a tooltip with an empty value rejects; a non-empty value
with no tooltip accepts. -/
theorem candResult_acceptance_rule_witness :
    candResult LookupOutcome.errorShown = CandResult.rejectedMark ∧
    candResult (LookupOutcome.signal "" "No such member") = CandResult.rejectedMark ∧
    candResult (LookupOutcome.signal "Dan" "") = CandResult.accepted :=
  ⟨(candResult_acceptance_rule "" "No such member").1,
   (candResult_acceptance_rule "" "No such member").2.1 (by decide) rfl,
   (candResult_acceptance_rule "Dan" "").2.2 (by decide) rfl⟩

/-- C10.  When the search control for a field cannot be found or clicked,
the candidate is skipped for that iteration with no mark: it enters neither
`used` nor `rejected`, and it can be submitted again later in the run (here
`"A"` is submitted for field 0 and again for field 1). -/
theorem tryNames_search_click_failure_skips :
    (∀ (env : Env) (f : ℕ) (name : String) (rest : List String) (s : EnterState),
      name ∉ s.used → name ∉ s.rejected →
      env.lookup s.trace.length = LookupOutcome.searchFail →
      tryNames env f (name :: rest) s = tryNames env f rest (pushSubmit f name s) ∧
      (pushSubmit f name s).used = s.used ∧
      (pushSubmit f name s).rejected = s.rejected) ∧
    (∃ (k l fa fb : ℕ), k < l ∧ fa ≠ fb ∧
      (enter_players envSearchFailFirst ["A", "B", "C"]).2.trace[k]? =
        some (Event.submit fa "A") ∧
      (enter_players envSearchFailFirst ["A", "B", "C"]).2.trace[l]? =
        some (Event.submit fb "A")) := by
  constructor
  · intro env f name rest s hu hr hlook
    refine ⟨?_, rfl, rfl⟩
    simp [tryNames, hu, hr, hlook, candResult]
  · exact ⟨0, 2, 0, 1, by decide, by decide, by decide, by decide⟩

/-- Witness for C10: the skip equation at a concrete oracle and state. -/
theorem tryNames_search_click_failure_skips_witness :
    ("A" ∉ initState.used ∧ "A" ∉ initState.rejected ∧
      envSearchFailFirst.lookup initState.trace.length = LookupOutcome.searchFail) ∧
    (tryNames envSearchFailFirst 0 ["A", "B"] initState =
        tryNames envSearchFailFirst 0 ["B"] (pushSubmit 0 "A" initState) ∧
      (pushSubmit 0 "A" initState).used = initState.used ∧
      (pushSubmit 0 "A" initState).rejected = initState.rejected) :=
  ⟨⟨by decide, by decide, by decide⟩,
   tryNames_search_click_failure_skips.1 envSearchFailFirst 0 "A" ["B"] initState
     (by decide) (by decide) (by decide)⟩

/-! ## Calendar navigator (`ChapelBooking.select_date`, lines 519-585) -/

inductive NavAction where
  | next
  | prev
deriving DecidableEq

/-- Clicking `ui-datepicker-next` (lines 555-557): the widget advances one
month, rolling the year over after December. -/
def stepNext : Int × ℕ → Int × ℕ
  | (y, m) => if m = 12 then (y + 1, 1) else (y, m + 1)

/-- Clicking `ui-datepicker-prev` (lines 559-561): the widget retreats one
month, rolling the year back before January. -/
def stepPrev : Int × ℕ → Int × ℕ
  | (y, m) => if m = 1 then (y - 1, 12) else (y, m - 1)

/-- The `while True` navigation loop of `select_date` (lines 545-562): stop
when the displayed (year, month) equals the target, otherwise compare the
tuples `(current_year, current_month_num) < (target_year, target_month)`
lexicographically — exactly as Python compares tuples — and click next or
prev.  `fuel` bounds the number of iterations; `none` models a loop that
has not converged within `fuel` clicks. -/
def navigateMonths (fuel : ℕ) (cy : Int) (cm : ℕ) (ty : Int) (tm : ℕ) :
    Option (List NavAction) :=
  if cy = ty ∧ cm = tm then some []
  else
    match fuel with
    | 0 => none
    | f + 1 =>
      if cy < ty ∨ (cy = ty ∧ cm < tm) then
        (navigateMonths f (stepNext (cy, cm)).1 (stepNext (cy, cm)).2 ty tm).map
          (fun l => NavAction.next :: l)
      else
        (navigateMonths f (stepPrev (cy, cm)).1 (stepPrev (cy, cm)).2 ty tm).map
          (fun l => NavAction.prev :: l)

/-- The month delta of the spec: `(targetYear - currentYear) * 12 +
(targetMonth - currentMonth)`, as a signed count of months. -/
def monthDelta (cy : Int) (cm : ℕ) (ty : Int) (tm : ℕ) : Int :=
  (12 * ty + tm) - (12 * cy + cm)

example : navigateMonths 3 2025 3 2025 6 =
    some [NavAction.next, NavAction.next, NavAction.next] := by decide
example : navigateMonths 5 2025 1 2024 11 = some [NavAction.prev, NavAction.prev] := by
  decide
example : navigateMonths 9 2025 12 2026 1 = some [NavAction.next] := by decide

lemma stepNext_delta (cy : Int) (cm : ℕ) (ty : Int) (tm : ℕ)
    (h1 : 1 ≤ cm) (h2 : cm ≤ 12) :
    monthDelta (stepNext (cy, cm)).1 (stepNext (cy, cm)).2 ty tm =
      monthDelta cy cm ty tm - 1 ∧
    1 ≤ (stepNext (cy, cm)).2 ∧ (stepNext (cy, cm)).2 ≤ 12 := by
  refine ⟨?_, ?_, ?_⟩ <;> simp only [stepNext, monthDelta] <;> split_ifs <;> push_cast <;>
    omega

lemma stepPrev_delta (cy : Int) (cm : ℕ) (ty : Int) (tm : ℕ)
    (h1 : 1 ≤ cm) (h2 : cm ≤ 12) :
    monthDelta (stepPrev (cy, cm)).1 (stepPrev (cy, cm)).2 ty tm =
      monthDelta cy cm ty tm + 1 ∧
    1 ≤ (stepPrev (cy, cm)).2 ∧ (stepPrev (cy, cm)).2 ≤ 12 := by
  refine ⟨?_, ?_, ?_⟩ <;> simp only [stepPrev, monthDelta] <;> split_ifs <;> push_cast <;>
    omega

/-- C5.  For every displayed (month, year) and target (month, year) (months
in 1..12), the navigation loop emits exactly `|delta|` one-month actions
where `delta = (ty - cy) * 12 + (tm - cm)`: all of them "advance" when
`delta > 0`, all "retreat" when `delta < 0`, none when `delta = 0`. -/
theorem navigateMonths_exact_delta (fuel : ℕ) (cy : Int) (cm : ℕ) (ty : Int) (tm : ℕ)
    (hcm1 : 1 ≤ cm) (hcm2 : cm ≤ 12) (htm1 : 1 ≤ tm) (htm2 : tm ≤ 12)
    (hfuel : (monthDelta cy cm ty tm).natAbs ≤ fuel) :
    ∃ acts : List NavAction,
      navigateMonths fuel cy cm ty tm = some acts ∧
      acts.length = (monthDelta cy cm ty tm).natAbs ∧
      (0 < monthDelta cy cm ty tm → ∀ a ∈ acts, a = NavAction.next) ∧
      (monthDelta cy cm ty tm < 0 → ∀ a ∈ acts, a = NavAction.prev) ∧
      (monthDelta cy cm ty tm = 0 → acts = []) := by
  induction fuel generalizing cy cm with
  | zero =>
    have hz : monthDelta cy cm ty tm = 0 := by
      have := hfuel
      omega
    have hconv : cy = ty ∧ cm = tm := by
      simp only [monthDelta] at hz
      omega
    refine ⟨[], ?_, by simp [hz], by intro h; omega, by intro h; omega, fun _ => rfl⟩
    simp [navigateMonths, hconv]
  | succ f ih =>
    by_cases hconv : cy = ty ∧ cm = tm
    · have hz : monthDelta cy cm ty tm = 0 := by
        simp only [monthDelta, hconv.1, hconv.2]
        ring
      refine ⟨[], ?_, by simp [hz], by intro h; omega, by intro h; omega, fun _ => rfl⟩
      simp [navigateMonths, hconv]
    · by_cases hlt : cy < ty ∨ (cy = ty ∧ cm < tm)
      · have hpos : 0 < monthDelta cy cm ty tm := by
          simp only [monthDelta]
          rcases hlt with h | ⟨rfl, h⟩ <;> omega
        obtain ⟨hd, hm1, hm2⟩ := stepNext_delta cy cm ty tm hcm1 hcm2
        obtain ⟨acts, ha1, ha2, ha3, ha4, ha5⟩ :=
          ih (stepNext (cy, cm)).1 (stepNext (cy, cm)).2 hm1 hm2 (by rw [hd]; omega)
        refine ⟨NavAction.next :: acts, ?_, ?_, ?_, ?_, ?_⟩
        · rw [show navigateMonths (f + 1) cy cm ty tm =
            (navigateMonths f (stepNext (cy, cm)).1 (stepNext (cy, cm)).2 ty tm).map
              (fun l => NavAction.next :: l) by
            simp [navigateMonths, hconv, hlt]]
          rw [ha1]
          rfl
        · rw [hd] at ha2
          simp only [List.length_cons, ha2]
          omega
        · intro hp a ha
          rcases List.mem_cons.mp ha with rfl | ha'
          · rfl
          · by_cases hz' : monthDelta cy cm ty tm - 1 = 0
            · rw [ha5 (by rw [hd]; omega)] at ha'
              simp at ha'
            · exact ha3 (by rw [hd]; omega) a ha'
        · intro hneg
          omega
        · intro hz'
          omega
      · have hneg : monthDelta cy cm ty tm < 0 := by
          push_neg at hlt hconv
          simp only [monthDelta]
          obtain ⟨hlt1, hlt2⟩ := hlt
          rcases lt_trichotomy cy ty with h | h | h
          · omega
          · subst h
            have h1 := hconv rfl
            have h2 := hlt2 rfl
            omega
          · omega
        obtain ⟨hd, hm1, hm2⟩ := stepPrev_delta cy cm ty tm hcm1 hcm2
        obtain ⟨acts, ha1, ha2, ha3, ha4, ha5⟩ :=
          ih (stepPrev (cy, cm)).1 (stepPrev (cy, cm)).2 hm1 hm2 (by rw [hd]; omega)
        refine ⟨NavAction.prev :: acts, ?_, ?_, ?_, ?_, ?_⟩
        · rw [show navigateMonths (f + 1) cy cm ty tm =
            (navigateMonths f (stepPrev (cy, cm)).1 (stepPrev (cy, cm)).2 ty tm).map
              (fun l => NavAction.prev :: l) by
            simp [navigateMonths, hconv, hlt]]
          rw [ha1]
          rfl
        · rw [hd] at ha2
          simp only [List.length_cons, ha2]
          omega
        · intro hp
          omega
        · intro hn a ha
          rcases List.mem_cons.mp ha with rfl | ha'
          · rfl
          · by_cases hz' : monthDelta cy cm ty tm + 1 = 0
            · rw [ha5 (by rw [hd]; omega)] at ha'
              simp at ha'
            · exact ha4 (by rw [hd]; omega) a ha'
        · intro hz'
          omega

/-- Witness for C5: from March 2025 to June 2025 the loop emits some action
list of length 3, and the theorem pins it to three "advance" actions. -/
theorem navigateMonths_exact_delta_witness :
    (1 ≤ 3 ∧ (3 : ℕ) ≤ 12 ∧ 1 ≤ 6 ∧ (6 : ℕ) ≤ 12 ∧
      (monthDelta 2025 3 2025 6).natAbs ≤ 3) ∧
    (∃ acts : List NavAction,
      navigateMonths 3 2025 3 2025 6 = some acts ∧
      acts.length = (monthDelta 2025 3 2025 6).natAbs ∧
      (0 < monthDelta 2025 3 2025 6 → ∀ a ∈ acts, a = NavAction.next) ∧
      (monthDelta 2025 3 2025 6 < 0 → ∀ a ∈ acts, a = NavAction.prev) ∧
      (monthDelta 2025 3 2025 6 = 0 → acts = [])) :=
  ⟨⟨by decide, by decide, by decide, by decide, by decide⟩,
   navigateMonths_exact_delta 3 2025 3 2025 6
     (by decide) (by decide) (by decide) (by decide) (by decide)⟩

/-! ## Day selection inside `select_date` (lines 564-569) -/

/-- One candidate day cell as the locator sees it: whether it is rendered as
an anchor (`<a>`), its text, whether it belongs to an adjacent greyed-out
month, and whether it is clickable. -/
structure DayCell where
  isAnchor : Bool
  text : String
  otherMonth : Bool
  clickable : Bool
deriving DecidableEq

/-- The day click of `select_date`: the XPath `//a[text()=day]` combined
with `element_to_be_clickable` picks the first clickable anchor in document
order whose text equals the target day — the locator itself carries no
displayed-month restriction. -/
def pickDay (cells : List DayCell) (day : ℕ) : Option DayCell :=
  cells.find? fun c => c.isAnchor && c.text == toString day && c.clickable

/-- C8 counterexample: a clickable anchor whose text is the target day but
which belongs to the adjacent greyed-out month is selected, so the claim
that the selection excludes adjacent-month cells fails as stated. -/
theorem pickDay_other_month_cex :
    pickDay [DayCell.mk true "5" true true] 5 = some (DayCell.mk true "5" true true) ∧
    (DayCell.mk true "5" true true).otherMonth = true := by
  exact ⟨by decide, rfl⟩

/-- C8 amended: the selection excludes adjacent-month cells only by virtue
of the widget's rendering — provided every adjacent greyed-out month cell is
not rendered as an anchor (jQuery UI's default), the picked cell belongs to
the displayed month. -/
theorem pickDay_displayed_month (cells : List DayCell) (day : ℕ) (c : DayCell)
    (hgrey : ∀ x ∈ cells, x.otherMonth = true → x.isAnchor = false)
    (hpick : pickDay cells day = some c) : c.otherMonth = false := by
  have hmem : c ∈ cells := List.mem_of_find?_eq_some hpick
  have hpred := List.find?_some hpick
  cases hom : c.otherMonth
  · rfl
  · rw [hgrey c hmem hom] at hpred
    simp at hpred

/-- Witness for C8 (amended): a grid whose only anchors are current-month
cells, where day 5 is picked and is indeed a displayed-month cell. -/
theorem pickDay_displayed_month_witness :
    ((∀ x ∈ [DayCell.mk false "5" true false, DayCell.mk true "5" false true],
        x.otherMonth = true → x.isAnchor = false) ∧
      pickDay [DayCell.mk false "5" true false, DayCell.mk true "5" false true] 5 =
        some (DayCell.mk true "5" false true)) ∧
    (DayCell.mk true "5" false true).otherMonth = false :=
  ⟨⟨by decide, by decide⟩,
   pickDay_displayed_month
     [DayCell.mk false "5" true false, DayCell.mk true "5" false true] 5
     (DayCell.mk true "5" false true) (by decide) (by decide)⟩

/-! ## Slot scanner (`ChapelBooking.find_available_courts`, lines 911-972) -/

/-- A candidate booking span as the scanner sees it: its class tokens, its
`title` attribute, its display text, and the text of the header of its
enclosing court column (`none` when the ancestor/header lookup raised,
lines 961-968). -/
structure Span where
  classes : List String
  title : String
  text : String
  header : Option String
deriving DecidableEq

/-- The driver-side XPath filter (lines 938-941): class contains `banefelt`,
`btn_ledig` and `link`, and the membership title matches exactly. -/
def isBookable (s : Span) : Bool :=
  s.classes.contains "banefelt" && s.classes.contains "btn_ledig" &&
    s.classes.contains "link" && s.title == "Can be booked with your membership"

/-- Python `str.strip()` on the ASCII whitespace the page can produce
(space, tab, newline, carriage return). -/
def isSpaceChar (c : Char) : Bool :=
  c == ' ' || c == Char.ofNat 9 || c == Char.ofNat 10 || c == Char.ofNat 13

def trimChars (cs : List Char) : List Char :=
  ((cs.dropWhile isSpaceChar).reverse.dropWhile isSpaceChar).reverse

/-- Python `text.split(" - ", 1)[0]` guarded by `" - " in text` (lines
951-953): the characters before the first occurrence of `" - "`, or `none`
when the separator does not occur. -/
def beforeSep : List Char → Option (List Char)
  | ' ' :: '-' :: ' ' :: _ => some []
  | c :: rest => (beforeSep rest).map (fun l => c :: l)
  | [] => none

/-- Python `str.replace(pat, '')`: drop every non-overlapping, leftmost
occurrence of `pat`.  At least one character is consumed per step, so
`cs.length` is enough fuel. -/
def removeAllAux (pat : List Char) : ℕ → List Char → List Char
  | _, [] => []
  | 0, cs => cs
  | fuel + 1, c :: cs =>
    if pat.isPrefixOf (c :: cs) then removeAllAux pat fuel ((c :: cs).drop pat.length)
    else c :: removeAllAux pat fuel cs

def removeAll (pat : List Char) (cs : List Char) : List Char :=
  removeAllAux pat cs.length cs

/-- Header cleanup (line 964): strip, drop `Click for info` and newlines,
strip again. -/
def cleanCourt (h : String) : String :=
  String.mk (trimChars (removeAll [Char.ofNat 10]
    (removeAll "Click for info".data (trimChars h.data))))

/-- Per-span processing (lines 944-968): require a `" - "` in the text,
compare the stripped start time with the target, then read the enclosing
column's header; a span whose processing fails at any point is skipped, not
fatal. -/
def processSpan (target : String) (s : Span) : Option (String × Span) :=
  match beforeSep s.text.data with
  | some p1 =>
    if trimChars p1 = target.data then
      match s.header with
      | some h => some (cleanCourt h, s)
      | none => none
    else none
  | none => none

/-- `ChapelBooking.find_available_courts` (lines 911-972): the bookable
spans in document order, each matching span contributing its column header
as court identifier.  No deduplication is performed. -/
def find_available_courts (target : String) (grid : List Span) : List (String × Span) :=
  (grid.filter isBookable).filterMap (processSpan target)

def spanA : Span :=
  ⟨["banefelt", "btn_ledig", "link"], "Can be booked with your membership",
    "21:00 - 22:00", some "Court 1"⟩

def spanB : Span :=
  ⟨["banefelt", "btn_ledig", "link"], "Can be booked with your membership",
    "21:00 - 23:00", some "Court 1"⟩

def spanC : Span :=
  ⟨["banefelt", "btn_ledig", "link"], "Can be booked with your membership",
    "21:00 - 22:00", some "Court 2"⟩

example : find_available_courts "21:00" [spanA, spanC] =
    [("Court 1", spanA), ("Court 2", spanC)] := by decide
example : find_available_courts "21:00"
    [⟨["banefelt", "btn_ledig", "link"], "Can be booked with your membership",
      "20:00 - 21:00", some "Court 1"⟩] = [] := by decide

/-- C2 counterexample: two distinct bookable spans in the same court column,
both starting at the target time, produce two entries with the same court
identifier — the scan result can repeat a court identifier. -/
theorem find_available_courts_duplicate_cex :
    find_available_courts "21:00" [spanA, spanB] =
      [("Court 1", spanA), ("Court 1", spanB)] ∧
    spanA ≠ spanB ∧
    ("Court 1", spanA).1 = ("Court 1", spanB).1 := by
  exact ⟨by decide, by decide, rfl⟩

/-- C2 amended: the scanner performs no deduplication; the result is free of
repeated court identifiers exactly when no two distinct bookable candidates
that survive processing resolve to the same identifier.  Under that
hypothesis, any two distinct entries of the result have different court
identifiers. -/
theorem find_available_courts_nodup_ids (target : String) (grid : List Span)
    (h : (grid.filter isBookable).Pairwise fun a b =>
      ∀ x ∈ processSpan target a, ∀ y ∈ processSpan target b, x.1 ≠ y.1) :
    (find_available_courts target grid).Pairwise fun x y => x.1 ≠ y.1 :=
  List.pairwise_filterMap.mpr h

/-- Witness for C2 (amended): with the two spans in different columns the
hypothesis holds and the two result entries carry different identifiers. -/
theorem find_available_courts_nodup_ids_witness :
    (([spanA, spanC].filter isBookable).Pairwise fun a b =>
      ∀ x ∈ processSpan "21:00" a, ∀ y ∈ processSpan "21:00" b, x.1 ≠ y.1) ∧
    (find_available_courts "21:00" [spanA, spanC]).Pairwise fun x y => x.1 ≠ y.1 :=
  ⟨by decide, find_available_courts_nodup_ids "21:00" [spanA, spanC] (by decide)⟩

/-! ## Booking attempt loop (`ChapelBooking.book_court`, lines 830-909) -/

/-- How one candidate slot attempt can end, read off the loop body:
* `noOnclick`: every click method failed / no onclick attribute
  (lines 864-869) — the code returns `False` for the whole run;
* `modalAbsent`: the player entry modal never became visible
  (lines 879-890) — the code returns `False` for the whole run;
* `playersFail`: `enter_players` returned `False` (lines 892-895) — the
  code returns `False` for the whole run ("Aborting booking flow");
* `flowFail`: `complete_booking_flow` returned `False` (lines 898-902) —
  the loop falls through to the next candidate;
* `raised`: an exception inside the attempt (line 903) — the loop continues
  with the next candidate;
* `ok`: the attempt succeeded — `book_court` returns `True`. -/
inductive AttemptOutcome where
  | noOnclick
  | modalAbsent
  | playersFail
  | flowFail
  | raised
  | ok
deriving DecidableEq

inductive BookResult where
  | confirmed
  | failed
deriving DecidableEq

/-- The `for court_num, booking_elem in available_courts` loop of
`book_court` (lines 840-906), with one oracle outcome per candidate slot in
scan order.  Returns the run result together with the number of candidate
slots actually attempted. -/
def bookLoop : List AttemptOutcome → BookResult × ℕ
  | [] => (BookResult.failed, 0)
  | o :: rest =>
    match o with
    | AttemptOutcome.ok => (BookResult.confirmed, 1)
    | AttemptOutcome.flowFail => ((bookLoop rest).1, (bookLoop rest).2 + 1)
    | AttemptOutcome.raised => ((bookLoop rest).1, (bookLoop rest).2 + 1)
    | _ => (BookResult.failed, 1)

/-- C3 counterexample: when the first candidate's player-entry modal does
not appear, `book_court` returns failure at once — the second candidate,
which would have succeeded, is never attempted, refuting the claim that
every post-selection failure moves the loop to the next candidate. -/
theorem bookLoop_abort_cex :
    bookLoop [AttemptOutcome.modalAbsent, AttemptOutcome.ok] = (BookResult.failed, 1) ∧
    [AttemptOutcome.modalAbsent, AttemptOutcome.ok].length = 2 ∧
    bookLoop [AttemptOutcome.ok] = (BookResult.confirmed, 1) := by
  exact ⟨rfl, rfl, rfl⟩

/-- C3 amended: the loop moves to the next candidate only when the
basket/terms/confirmation flow fails or an exception is raised during the
attempt; a click with no onclick handler, an absent player-entry modal, or
a failed player assignment terminates the run as failed immediately, and
the run is declared failed after every candidate has been attempted only
when every attempt failed in one of the two recoverable ways. -/
theorem bookLoop_retry_semantics :
    bookLoop [] = (BookResult.failed, 0) ∧
    (∀ rest, bookLoop (AttemptOutcome.ok :: rest) = (BookResult.confirmed, 1)) ∧
    (∀ o rest, o = AttemptOutcome.flowFail ∨ o = AttemptOutcome.raised →
      bookLoop (o :: rest) = ((bookLoop rest).1, (bookLoop rest).2 + 1)) ∧
    (∀ o rest, o = AttemptOutcome.noOnclick ∨ o = AttemptOutcome.modalAbsent ∨
        o = AttemptOutcome.playersFail →
      bookLoop (o :: rest) = (BookResult.failed, 1)) ∧
    (∀ l : List AttemptOutcome,
      (∀ o ∈ l, o = AttemptOutcome.flowFail ∨ o = AttemptOutcome.raised) →
      bookLoop l = (BookResult.failed, l.length)) := by
  refine ⟨rfl, fun rest => rfl, ?_, ?_, ?_⟩
  · rintro o rest (rfl | rfl) <;> rfl
  · rintro o rest (rfl | rfl | rfl) <;> rfl
  · intro l
    induction l with
    | nil => intro _; rfl
    | cons o rest ih =>
      intro hall
      have hrest := ih fun x hx => hall x (List.mem_cons_of_mem o hx)
      rcases hall o (List.mem_cons_self o rest) with rfl | rfl <;>
        simp [bookLoop, hrest]

/-- Witness for C3 (amended): a run of two recoverable failures attempts
both candidates and fails, and a head-position assignment failure aborts
with one attempt. -/
theorem bookLoop_retry_semantics_witness :
    bookLoop [AttemptOutcome.flowFail, AttemptOutcome.raised] =
      (BookResult.failed, [AttemptOutcome.flowFail, AttemptOutcome.raised].length) ∧
    bookLoop [AttemptOutcome.playersFail, AttemptOutcome.ok] = (BookResult.failed, 1) :=
  ⟨bookLoop_retry_semantics.2.2.2.2 [AttemptOutcome.flowFail, AttemptOutcome.raised]
     (by decide),
   bookLoop_retry_semantics.2.2.2.1 AttemptOutcome.playersFail [AttemptOutcome.ok]
     (Or.inr (Or.inr rfl))⟩

/-! ## `main` and the driver session (lines 982-1036, `close` lines 511-517) -/

/-- The branch outcomes of one run of `main` that the driver decides:
whether `login()` returned `True`, whether `driver.refresh()` (line 1003)
raised, whether the dropdown wait (line 1014) succeeded within its timeout
(on timeout `WebDriverWait.until` raises `TimeoutException`), and the
boolean results of `select_court_type`, `select_date` and `book_court`
(each of which catches its own exceptions). -/
structure MainEnv where
  loginOk : Bool
  refreshRaises : Bool
  dropdownOk : Bool
  courtTypeOk : Bool
  dateOk : Bool
  bookOk : Bool
deriving DecidableEq

inductive RunExit where
  | normal
  | raised
deriving DecidableEq

/-- `closed` records whether `chapel.close()` (lines 511-517, quitting the
driver) was reached before the run terminated. -/
structure RunResult where
  exit : RunExit
  closed : Bool
deriving DecidableEq

/-- `main` (lines 982-1036).  `chapel.close()` is the last statement of
`main`, with no try/finally around the body: an exception raised by
`driver.refresh()` or by the dropdown wait propagates out of `main` and the
close is never executed.  All boolean-returning stage calls fall through to
the final `chapel.close()`; `book_court`'s result is ignored (line 1023). -/
def mainRun (env : MainEnv) : RunResult :=
  if env.loginOk then
    if env.refreshRaises then ⟨RunExit.raised, false⟩
    else if env.dropdownOk then
      if env.courtTypeOk then
        if env.dateOk then ⟨RunExit.normal, true⟩
        else ⟨RunExit.normal, true⟩
      else ⟨RunExit.normal, true⟩
    else ⟨RunExit.raised, false⟩
  else ⟨RunExit.normal, true⟩

/-- C4: the claim that the driver session is released on every exit path is
right as a requirement but wrong of this code.  When login succeeds and the
court-type dropdown never becomes populated, the bounded wait raises and
`main` terminates without reaching `chapel.close()`; the same happens when
`driver.refresh()` raises.  On every non-raising path the close is
reached. -/
theorem mainRun_driver_leak_on_timeout :
    (mainRun (MainEnv.mk true false false true true true)).closed = false ∧
    (mainRun (MainEnv.mk true false false true true true)).exit = RunExit.raised ∧
    (mainRun (MainEnv.mk true true true true true true)).closed = false ∧
    (mainRun (MainEnv.mk false false true true true true)).closed = true ∧
    (mainRun (MainEnv.mk true false true true true true)).closed = true ∧
    (mainRun (MainEnv.mk true false true false true true)).closed = true ∧
    (mainRun (MainEnv.mk true false true true false true)).closed = true := by
  exact ⟨rfl, rfl, rfl, rfl, rfl, rfl, rfl⟩

end Chapel
